import Mathlib

/-!
Verification of the commit-navigation, selection-bookkeeping, list-rebuilding
and view-state logic of `src/assets/kiri.js` (the front-end of the kiri visual
diff viewer).  Each JS function relevant to the claims is shallowly embedded:
the commits form is a `List Bool` of checkbox states, JS numbers are `Int`
(or `Nat` where the source only produces nonnegative values), DOM text values
are `String`, and the pan/zoom and view state is an explicit record.
-/

namespace Kiri

/-! ### Commit checkbox navigation (select_next_commit and friends)

Every one of the four handlers starts with the same loop over the commit
checkboxes of the commits form: it pushes the index of
every checked box into `selected_commits` (in ascending index order) and the
shifted index into `next_selected_commits`.  `checkedIndices` is that first
list; the shifted list, after the per-handler boundary fixes, is built by the
`..._targets` functions below.  Index arithmetic is done in `Int`, as the JS
values can go below zero before the boundary fixes. -/

def checkedIndices (cs : List Bool) : List Nat :=
  (List.range cs.length).filter (fun k => cs.getD k false)

/-- The two closing loops shared by all four handlers: first
`commits[selected_commits[i]].checked = false` for every selected index,
then `commits[next_selected_commits[i]].checked = true`, the second loop
being bounded by `selected_commits.length` exactly as in the source. -/
def apply_selection (cs : List Bool) (sel : List Nat) (next : List Int) : List Bool :=
  let cs1 := sel.foldl (fun acc k => acc.set k false) cs
  (next.take sel.length).foldl (fun acc k => acc.set k.toNat true) cs1

/-- Boundary fixes of `select_next_commit` (kiri.js lines 158-189): each
conditional assignment `if (next[m] >= B) next[m] = B;` is modelled as a
`set` whose value is chosen by the same comparison. -/
def select_next_commit_targets (n : Int) (sel : List Nat) : List Int :=
  let next := sel.map (fun k => (k : Int) + 1)
  let next := next.set 1 (if n - 1 ≤ next.getD 1 0 then n - 1 else next.getD 1 0)
  let next := next.set 0 (if n - 2 ≤ next.getD 0 0 then n - 2 else next.getD 0 0)
  next

/-- kiri.js lines 158-189. -/
def select_next_commit (cs : List Bool) : List Bool :=
  apply_selection cs (checkedIndices cs)
    (select_next_commit_targets (cs.length : Int) (checkedIndices cs))

/-- Target computation of `select_next_2_commits` (kiri.js lines 112-156):
when the second commit reaches the end it is clamped to `length - 1` and the
first one is advanced when possible; otherwise the first commit is kept;
then the two bottom-boundary fixes run. -/
def select_next_2_commits_targets (n : Int) (sel : List Nat) : List Int :=
  let next := sel.map (fun k => (k : Int) + 1)
  let next :=
    if n ≤ next.getD 1 0 then
      let next := next.set 1 (n - 1)
      if next.getD 0 0 ≤ n - 2 then next.set 0 ((sel.getD 0 0 : Int) + 1) else next
    else
      next.set 0 (sel.getD 0 0 : Int)
  let next := next.set 0 (if next.getD 1 0 ≤ next.getD 0 0 then next.getD 1 0 - 1 else next.getD 0 0)
  let next := next.set 0 (if n - 2 ≤ next.getD 0 0 then n - 2 else next.getD 0 0)
  next

/-- kiri.js lines 112-156. -/
def select_next_2_commits (cs : List Bool) : List Bool :=
  apply_selection cs (checkedIndices cs)
    (select_next_2_commits_targets (cs.length : Int) (checkedIndices cs))

/-- Target computation of `select_previows_2_commits` (kiri.js lines
191-233): the first commit is kept by default, moved backwards when the two
selections would touch, then the two top-boundary fixes run. -/
def select_previows_2_commits_targets (sel : List Nat) : List Int :=
  let next := sel.map (fun k => (k : Int) - 1)
  let next := next.set 0 (sel.getD 0 0 : Int)
  let next :=
    if next.getD 1 0 = next.getD 0 0 then
      if 0 < next.getD 0 0 then next.set 0 (next.getD 0 0 - 1) else next
    else next
  let next := next.set 0 (if next.getD 0 0 < 0 then 0 else next.getD 0 0)
  let next := next.set 1 (if next.getD 1 0 ≤ 1 then 1 else next.getD 1 0)
  next

/-- kiri.js lines 191-233. -/
def select_previows_2_commits (cs : List Bool) : List Bool :=
  apply_selection cs (checkedIndices cs)
    (select_previows_2_commits_targets (checkedIndices cs))

/-- Target computation of `select_previows_commit` (kiri.js lines 235-267). -/
def select_previows_commit_targets (sel : List Nat) : List Int :=
  let next := sel.map (fun k => (k : Int) - 1)
  let next := next.set 0 (if next.getD 0 0 ≤ 0 then 0 else next.getD 0 0)
  let next := next.set 1 (if next.getD 1 0 ≤ 1 then 1 else next.getD 1 0)
  next

/-- kiri.js lines 235-267. -/
def select_previows_commit (cs : List Bool) : List Bool :=
  apply_selection cs (checkedIndices cs)
    (select_previows_commit_targets (checkedIndices cs))

/-! ### commit_click (kiri.js lines 42-84)

The function first scans `gitgraph._graph.commits` for the graph indices of
the clicked hash and of the two selected hashes; the claim supplies those
indices directly (`hash_idx`, `commit1_idx`, `commit2_idx`), so the embedding
takes them as arguments and mirrors the branch chain that decides which of
the two selected hashes is replaced.  The result is the new
`(commit1, commit2)` pair. -/

def commit_click (hash_idx commit1_idx commit2_idx : Int)
    (hash commit1 commit2 : String) : String × String :=
  if hash_idx ≤ commit2_idx then (commit1, hash)
  else if commit1_idx ≤ hash_idx then (hash, commit2)
  else if hash_idx - commit2_idx < commit1_idx - hash_idx then (commit1, hash)
  else (hash, commit2)

/-! ### The commits_form change handler (kiri.js lines 1106-1115) -/

/-- Number of checked commit boxes (the jQuery checked-count query). -/
def count_checked (cs : List Bool) : Nat :=
  cs.count true

/-- The change handler registered on every commit checkbox: the browser has
just set box `k` to `b`; if the checked count now exceeds `max_allowed = 2`,
the handler unchecks the box that was just changed
(`$(this).prop("checked", "")`). -/
def commit_change_handler (cs : List Bool) (k : Nat) (b : Bool) : List Bool :=
  let after := cs.set k b
  if 2 < count_checked after then after.set k false else after

/-! ### if_url_exists (kiri.js lines 454-472)

The `onprogress` handler takes the first character of the decimal string of
the response status and invokes the callback with `true` in the switch case
for the digit 2 and with `false` in the default branch.
The first character of the decimal representation of a natural
number is its leading decimal digit; `statusFirstNumber` computes it by
repeated division, with enough fuel (the number itself) for the recursion. -/

def leadingDigitAux : Nat → Nat → Nat
  | 0, n => n
  | fuel + 1, n => if n < 10 then n else leadingDigitAux fuel (n / 10)

def statusFirstNumber (status : Nat) : Nat :=
  leadingDigitAux status status

/-- The value passed to the callback of `if_url_exists` for a response with
the given HTTP status. -/
def if_url_exists (status : Nat) : Bool :=
  statusFirstNumber status == 2

/-! ### update_sheets_list (kiri.js lines 678-774)

`loadFile` fetches the flat `sch_sheets` file of each commit; its text is
split on newlines, empty lines are dropped (`.filter((a) => a)`), and each
line `d` contributes `d.split("|")[0]`.  All ids of the first file are pushed,
ids of the second file are pushed only when not already present, and finally
`Array.from(new Set(sheets))` removes duplicates keeping first occurrences
(the order of a JS `Set` is insertion order). -/

def jsLines (s : String) : List String :=
  (s.split (fun c => c == '\n')).filter (fun a => !(a == ""))

def sheetIdOf (d : String) : String :=
  (d.splitOn "|").headD ""

def sheetIds (s : String) : List String :=
  (jsLines s).map sheetIdOf

/-- One insertion step of the JS `Set` semantics (also the body of the second
loop, which pushes only ids that are not yet in `sheets`). -/
def pushNew (sheets : List String) (x : String) : List String :=
  if x ∈ sheets then sheets else sheets ++ [x]

/-- `Array.from(new Set(l))`: duplicates removed, first occurrences kept. -/
def setDedup (l : List String) : List String :=
  l.foldl pushNew []

/-- The list of sheet ids `update_sheets_list` rebuilds from the two
`sch_sheets` files: first loop pushes every id of `data1`, second loop pushes
ids of `data2` not already present, then the `Set` pass dedupes. -/
def update_sheets_list (data1 data2 : String) : List String :=
  let sheets := sheetIds data1
  let sheets := (sheetIds data2).foldl pushNew sheets
  setDedup sheets

/-- The sheet list as the specification sentence describes it: the sheet ids
of the first commit in file order, followed by those sheet ids of the second
commit that are not already present, with no duplicates.  This definition is
written from the words of the claim, to be compared with
`update_sheets_list` above. -/
def spec_sheets_list (data1 data2 : String) : List String :=
  setDedup (sheetIds data1) ++
    setDedup ((sheetIds data2).filter (fun s => !(decide (s ∈ sheetIds data1))))

/-! ### Pan/zoom bookkeeping (removeEmbed, onUpdatedCTM)

kiri.js lines 1432-1467 and 1386-1404.  `panZoom` abstracts the live
svg-pan-zoom instance as its current zoom and pan (`getZoom()` / `getPan()`);
`none` is the destroyed/null instance.  Zoom values are `Option Int`
(`none` is the JS `null`), pans are `Option (Int × Int)`. -/

structure PanZoomState where
  current_view : String
  old_view : String
  panZoom : Option (Int × (Int × Int))
  sch_current_zoom : Option Int
  sch_old_zoom : Option Int
  sch_current_pan : Option (Int × Int)
  pcb_current_zoom : Option Int
  pcb_old_zoom : Option Int
  pcb_current_pan : Option (Int × Int)

/-- kiri.js lines 1432-1467: when a live instance exists and the old view is
not the 3D view, the departing views zoom and pan are saved (into the sch
variables when the new view is the PCB, into the pcb variables when the new
view is the schematic) and the matching old-zoom marker is nulled; then the
instance is destroyed. -/
def removeEmbed (s : PanZoomState) : PanZoomState :=
  match s.panZoom with
  | none => s
  | some (z, p) =>
    let s1 :=
      if s.old_view ≠ "show_3d" then
        if s.current_view = "show_pcb" then
          { s with sch_current_zoom := some z, sch_current_pan := some p, sch_old_zoom := none }
        else if s.current_view = "show_sch" then
          { s with pcb_current_zoom := some z, pcb_current_pan := some p, pcb_old_zoom := none }
        else s
      else s
    { s1 with panZoom := none }

/-- kiri.js lines 1386-1404, the `onUpdatedCTM` callback of the pan/zoom
instance created by `createNewEmbed`: returns the updated state together
with the `(zoom, pan)` pair passed to `panZoom_instance.zoom` and
`panZoom_instance.pan` when a restore fires (`none` when it does not). -/
def onUpdatedCTM (s : PanZoomState) :
    PanZoomState × Option (Option Int × Option (Int × Int)) :=
  if s.current_view = "show_sch" then
    if s.sch_current_zoom ≠ s.sch_old_zoom then
      ({ s with sch_old_zoom := s.sch_current_zoom },
        some (s.sch_current_zoom, s.sch_current_pan))
    else (s, none)
  else
    if s.pcb_current_zoom ≠ s.pcb_old_zoom then
      ({ s with pcb_old_zoom := s.pcb_current_zoom },
        some (s.pcb_current_zoom, s.pcb_current_pan))
    else (s, none)

/-! ### View mode switching (show_sch / show_pcb / show_3d)

kiri.js lines 1145-1212, together with `update_layer` (lines 970-1002).
The record keeps the DOM state these functions touch: the three view-mode
inputs, the active classes of their labels, the display of the side lists
and titles, the `current_view` / `old_view` globals, and the layer radio
list (its checked flags), which decides the error fallback of
`update_layer`.  The trailing `update_page()` of `show_sch` and
`update_3d()` of `show_3d` modify none of these fields (they rewrite the
page radios, the diff images and the 3D embeds only), so they are the
identity at this abstraction; the trailing `update_layer()` of `show_pcb`
can call `show_sch()` and is modelled below. -/

structure ViewState where
  show_sch_checked : Bool
  show_pcb_checked : Bool
  show_3d_checked : Bool
  sch_lbl_active : Bool
  pcb_lbl_active : Bool
  lbl_3d_active : Bool
  pages_list_display : String
  layers_list_display : String
  sch_title_display : String
  pcb_title_display : String
  title_3d_display : String
  current_view : String
  old_view : String
  layers : List Bool

/-- kiri.js lines 1145-1166. -/
def show_sch (s : ViewState) : ViewState :=
  { s with
    old_view := s.current_view
    current_view := "show_sch"
    sch_lbl_active := true
    show_sch_checked := true
    pages_list_display := "inline"
    sch_title_display := "inline"
    pcb_lbl_active := false
    show_pcb_checked := false
    layers_list_display := "none"
    pcb_title_display := "none"
    lbl_3d_active := false
    show_3d_checked := false
    title_3d_display := "none" }

/-- kiri.js lines 970-1002, restricted to the fields of `ViewState`: when a
layer radio is checked (`selected_layer >= 0`) the function proceeds with
the checked layer; when none is checked, the recovery at line 987 checks the
first radio, which throws exactly when the layers list is empty — that catch
logs and calls `show_sch()` and returns.  (The identical fallback at lines
998-1001 is unreachable: the jQuery list object is always truthy.)  The rest
of the function rewrites the layer images and rebuilds the layers list
(`update_layers_list`, lines 900-968), which never writes the view-mode
inputs, `current_view` or `old_view`; that rebuild is not tracked here. -/
def update_layer (s : ViewState) : ViewState :=
  if s.layers.contains true then s
  else if s.layers = [] then show_sch s
  else { s with layers := s.layers.set 0 true }

/-- kiri.js lines 1168-1189: the DOM/global assignments followed by the
trailing `update_layer()` call of line 1188. -/
def show_pcb (s : ViewState) : ViewState :=
  update_layer
    { s with
      old_view := s.current_view
      current_view := "show_pcb"
      pcb_lbl_active := true
      show_pcb_checked := true
      layers_list_display := "inline"
      pcb_title_display := "inline"
      sch_lbl_active := false
      show_sch_checked := false
      pages_list_display := "none"
      sch_title_display := "none"
      lbl_3d_active := false
      show_3d_checked := false
      title_3d_display := "none" }

/-- kiri.js lines 1191-1212. -/
def show_3d (s : ViewState) : ViewState :=
  { s with
    old_view := s.current_view
    current_view := "show_3d"
    lbl_3d_active := true
    show_3d_checked := true
    title_3d_display := "inline"
    pcb_lbl_active := false
    show_pcb_checked := false
    layers_list_display := "none"
    pcb_title_display := "none"
    sch_lbl_active := false
    show_sch_checked := false
    pages_list_display := "none"
    sch_title_display := "none" }

/-! ### Page / layer radio navigation (kiri.js lines 296-373)

Both branches of `select_next_sch_or_pcb` (pages and layers) run the same
index arithmetic on the radio list, as do both branches of
`select_preview_sch_or_pcb`; the functions below are that arithmetic:
given the list length, the index of the currently checked radio and the
`cycle` flag, they return the index that gets checked. -/

def select_next_sch_or_pcb (len k : Int) (cycle : Bool) : Int :=
  let new_index := k + 1
  if len ≤ new_index then (if cycle then 0 else len - 1) else new_index

def select_preview_sch_or_pcb (len k : Int) (cycle : Bool) : Int :=
  let new_index := k - 1
  if new_index < 0 then (if cycle then len - 1 else 0) else new_index

/-! ### Machinery: checkbox lists under set/filter -/

theorem getD_set_self (l : List Bool) (k : Nat) (b : Bool) (hk : k < l.length) :
    (l.set k b).getD k false = b := by
  induction l generalizing k with
  | nil => simp at hk
  | cons x xs ih =>
    cases k with
    | zero => simp
    | succ m =>
      simp only [List.set_cons_succ, List.getD_cons_succ]
      exact ih m (by simp at hk; omega)

theorem getD_set_ne (l : List Bool) (k m : Nat) (b : Bool) (h : k ≠ m) :
    (l.set k b).getD m false = l.getD m false := by
  induction l generalizing k m with
  | nil => simp
  | cons x xs ih =>
    cases k with
    | zero =>
      cases m with
      | zero => exact absurd rfl h
      | succ m2 => simp
    | succ k2 =>
      cases m with
      | zero => simp
      | succ m2 =>
        simp only [List.set_cons_succ, List.getD_cons_succ]
        exact ih k2 m2 (fun hh => h (by rw [hh]))

theorem range_filter_single (n a : Nat) (ha : a < n) :
    (List.range n).filter (fun k => k == a) = [a] := by
  induction n with
  | zero => omega
  | succ m ih =>
    rw [List.range_succ, List.filter_append]
    by_cases hm : a < m
    · rw [ih hm]
      have hne : (m == a) = false := by simp; omega
      simp [hne]
    · have ham : a = m := by omega
      subst ham
      have h1 : (List.range a).filter (fun k => k == a) = [] := by
        rw [List.filter_eq_nil_iff]
        intro x hx
        rw [List.mem_range] at hx
        simp
        omega
      simp [h1]

theorem range_filter_pair (n a b : Nat) (hab : a < b) (hb : b < n) :
    (List.range n).filter (fun k => k == a || k == b) = [a, b] := by
  induction n with
  | zero => omega
  | succ m ih =>
    rw [List.range_succ, List.filter_append]
    by_cases hm : b < m
    · rw [ih hm]
      have hne : (m == a || m == b) = false := by simp; omega
      simp [hne]
    · have hbm : b = m := by omega
      subst hbm
      have h1 : (List.range b).filter (fun k => k == a || k == b) =
          (List.range b).filter (fun k => k == a) := by
        apply List.filter_congr
        intro x hx
        rw [List.mem_range] at hx
        have hxb : (x == b) = false := by simp; omega
        simp [hxb]
      rw [h1, range_filter_single b a hab]
      simp

theorem mem_checkedIndices {cs : List Bool} {k : Nat} :
    k ∈ checkedIndices cs ↔ k < cs.length ∧ cs.getD k false = true := by
  simp [checkedIndices, List.mem_filter, List.mem_range]

/-- Effect of the two closing loops on the set of checked indices: starting
from exactly the checked indices `i < j`, unchecking them and checking the
in-range targets `a < b` leaves exactly `a` and `b` checked. -/
theorem checkedIndices_apply (cs : List Bool) (i j : Nat) (a b : Int)
    (hij : i < j) (hci : checkedIndices cs = [i, j])
    (ha : 0 ≤ a) (hab : a < b) (hb : b < (cs.length : Int)) :
    checkedIndices (apply_selection cs [i, j] [a, b]) = [a.toNat, b.toNat] := by
  have hj : j < cs.length := by
    have hmem : j ∈ checkedIndices cs := by rw [hci]; simp
    exact (mem_checkedIndices.mp hmem).1
  have hi : i < cs.length := Nat.lt_trans hij hj
  have happ : apply_selection cs [i, j] [a, b] =
      (((cs.set i false).set j false).set a.toNat true).set b.toNat true := rfl
  rw [happ]
  have hlen : ((((cs.set i false).set j false).set a.toNat true).set b.toNat true).length
      = cs.length := by simp
  unfold checkedIndices
  rw [hlen]
  have hstep : ∀ k ∈ List.range cs.length,
      ((((cs.set i false).set j false).set a.toNat true).set b.toNat true).getD k false
        = (k == a.toNat || k == b.toNat) := by
    intro k hk
    rw [List.mem_range] at hk
    by_cases hkb : k = b.toNat
    · subst hkb
      rw [getD_set_self _ _ _ (by simp; omega)]
      simp
    · rw [getD_set_ne _ _ _ _ (fun hh => hkb hh.symm)]
      by_cases hka : k = a.toNat
      · subst hka
        rw [getD_set_self _ _ _ (by simp; omega)]
        simp
      · rw [getD_set_ne _ _ _ _ (fun hh => hka hh.symm)]
        have hrhs : (k == a.toNat || k == b.toNat) = false := by
          simp
          exact ⟨hka, hkb⟩
        rw [hrhs]
        by_cases hkj : k = j
        · subst hkj
          rw [getD_set_self _ _ _ (by simp; omega)]
        · rw [getD_set_ne _ _ _ _ (fun hh => hkj hh.symm)]
          by_cases hki : k = i
          · subst hki
            rw [getD_set_self _ _ _ hi]
          · rw [getD_set_ne _ _ _ _ (fun hh => hki hh.symm)]
            by_contra hcontra
            have hTrue : cs.getD k false = true := by
              cases hv : cs.getD k false
              · exact absurd hv hcontra
              · rfl
            have hmem2 : k ∈ checkedIndices cs := mem_checkedIndices.mpr ⟨hk, hTrue⟩
            rw [hci] at hmem2
            simp at hmem2
            rcases hmem2 with h1 | h1
            · exact hki h1
            · exact hkj h1
  rw [List.filter_congr hstep]
  exact range_filter_pair cs.length a.toNat b.toNat (by omega) (by omega)

/-- Indices checked after `select_next_commit`: both selections advance by
one, the first clamped at `length - 2`, the second at `length - 1`. -/
theorem select_next_commit_result (cs : List Bool) (i j : Nat)
    (hn : 2 ≤ cs.length) (hij : i < j) (hci : checkedIndices cs = [i, j]) :
    checkedIndices (select_next_commit cs) =
      [min (i + 1) (cs.length - 2), min (j + 1) (cs.length - 1)] := by
  have hj : j < cs.length := by
    have hmem : j ∈ checkedIndices cs := by rw [hci]; simp
    exact (mem_checkedIndices.mp hmem).1
  have hsel : select_next_commit cs = apply_selection cs [i, j]
      (select_next_commit_targets (cs.length : Int) [i, j]) := by
    rw [select_next_commit, hci]
  have htar : select_next_commit_targets (cs.length : Int) [i, j] =
      [if (cs.length : Int) - 2 ≤ (i : Int) + 1 then (cs.length : Int) - 2 else (i : Int) + 1,
       if (cs.length : Int) - 1 ≤ (j : Int) + 1 then (cs.length : Int) - 1 else (j : Int) + 1] :=
    rfl
  rw [hsel, htar]
  set A := (if (cs.length : Int) - 2 ≤ (i : Int) + 1 then (cs.length : Int) - 2 else (i : Int) + 1)
    with hA
  set B := (if (cs.length : Int) - 1 ≤ (j : Int) + 1 then (cs.length : Int) - 1 else (j : Int) + 1)
    with hB
  have hA0 : 0 ≤ A := by rw [hA]; split_ifs <;> omega
  have hAB : A < B := by rw [hA, hB]; split_ifs <;> omega
  have hBn : B < (cs.length : Int) := by rw [hB]; split_ifs <;> omega
  rw [checkedIndices_apply cs i j A B hij hci hA0 hAB hBn]
  have e1 : A.toNat = min (i + 1) (cs.length - 2) := by rw [hA]; split_ifs <;> omega
  have e2 : B.toNat = min (j + 1) (cs.length - 1) := by rw [hB]; split_ifs <;> omega
  rw [e1, e2]

/-- Indices checked after `select_previows_commit`: both selections move back
by one, the first clamped at 0, the second at 1. -/
theorem select_previows_commit_result (cs : List Bool) (i j : Nat)
    (hn : 2 ≤ cs.length) (hij : i < j) (hci : checkedIndices cs = [i, j]) :
    checkedIndices (select_previows_commit cs) = [i - 1, max (j - 1) 1] := by
  have hj : j < cs.length := by
    have hmem : j ∈ checkedIndices cs := by rw [hci]; simp
    exact (mem_checkedIndices.mp hmem).1
  have hsel : select_previows_commit cs = apply_selection cs [i, j]
      (select_previows_commit_targets [i, j]) := by
    rw [select_previows_commit, hci]
  have htar : select_previows_commit_targets [i, j] =
      [if (i : Int) - 1 ≤ 0 then 0 else (i : Int) - 1,
       if (j : Int) - 1 ≤ 1 then 1 else (j : Int) - 1] := rfl
  rw [hsel, htar]
  set A := (if (i : Int) - 1 ≤ 0 then 0 else (i : Int) - 1) with hA
  set B := (if (j : Int) - 1 ≤ 1 then 1 else (j : Int) - 1) with hB
  have hA0 : 0 ≤ A := by rw [hA]; split_ifs <;> omega
  have hAB : A < B := by rw [hA, hB]; split_ifs <;> omega
  have hBn : B < (cs.length : Int) := by rw [hB]; split_ifs <;> omega
  rw [checkedIndices_apply cs i j A B hij hci hA0 hAB hBn]
  have e1 : A.toNat = i - 1 := by rw [hA]; split_ifs <;> omega
  have e2 : B.toNat = max (j - 1) 1 := by rw [hB]; split_ifs <;> omega
  rw [e1, e2]

/-- Indices checked after `select_next_2_commits` while the second selection
is not yet at the end: the second advances to `j + 1`, the first stays. -/
theorem select_next_2_commits_result_low (cs : List Bool) (i j : Nat)
    (_hn : 2 ≤ cs.length) (hij : i < j) (hci : checkedIndices cs = [i, j])
    (hlow : j + 1 < cs.length) :
    checkedIndices (select_next_2_commits cs) = [i, j + 1] := by
  have hsel : select_next_2_commits cs = apply_selection cs [i, j]
      (select_next_2_commits_targets (cs.length : Int) [i, j]) := by
    rw [select_next_2_commits, hci]
  have h1 : ¬ ((cs.length : Int) ≤ (j : Int) + 1) := by omega
  have h2 : ¬ ((j : Int) + 1 ≤ (i : Int)) := by omega
  have h3 : ¬ ((cs.length : Int) - 2 ≤ (i : Int)) := by omega
  have htar : select_next_2_commits_targets (cs.length : Int) [i, j] =
      [(i : Int), (j : Int) + 1] := by
    simp [select_next_2_commits_targets, h1, h2, h3]
  rw [hsel, htar]
  rw [checkedIndices_apply cs i j (i : Int) ((j : Int) + 1) hij hci (by omega) (by omega)
    (by omega)]
  have e1 : ((i : Int)).toNat = i := by omega
  have e2 : ((j : Int) + 1).toNat = j + 1 := by omega
  rw [e1, e2]

/-- Indices checked after `select_next_2_commits` when the second selection
would pass the end: the second is clamped at `length - 1` and the first
advances when possible. -/
theorem select_next_2_commits_result_high (cs : List Bool) (i j : Nat)
    (hn : 2 ≤ cs.length) (hij : i < j) (hci : checkedIndices cs = [i, j])
    (hhigh : cs.length ≤ j + 1) :
    checkedIndices (select_next_2_commits cs) =
      [min (i + 1) (cs.length - 2), cs.length - 1] := by
  have hj : j < cs.length := by
    have hmem : j ∈ checkedIndices cs := by rw [hci]; simp
    exact (mem_checkedIndices.mp hmem).1
  have hsel : select_next_2_commits cs = apply_selection cs [i, j]
      (select_next_2_commits_targets (cs.length : Int) [i, j]) := by
    rw [select_next_2_commits, hci]
  have h1 : (cs.length : Int) ≤ (j : Int) + 1 := by omega
  by_cases hsub : (cs.length : Int) - 1 ≤ (i : Int) + 1
  · have hin : ¬ ((i : Int) + 1 ≤ (cs.length : Int) - 2) := by omega
    have hfix2 : (cs.length : Int) - 2 ≤ (cs.length : Int) - 1 - 1 := by omega
    have htar : select_next_2_commits_targets (cs.length : Int) [i, j] =
        [(cs.length : Int) - 2, (cs.length : Int) - 1] := by
      simp [select_next_2_commits_targets, h1, hin, hsub, hfix2]
    rw [hsel, htar]
    rw [checkedIndices_apply cs i j ((cs.length : Int) - 2) ((cs.length : Int) - 1) hij hci
      (by omega) (by omega) (by omega)]
    have e1 : ((cs.length : Int) - 2).toNat = min (i + 1) (cs.length - 2) := by omega
    have e2 : ((cs.length : Int) - 1).toNat = cs.length - 1 := by omega
    rw [e1, e2]
  · have hin : (i : Int) + 1 ≤ (cs.length : Int) - 2 := by omega
    have htar : select_next_2_commits_targets (cs.length : Int) [i, j] =
        [if (cs.length : Int) - 2 ≤ (i : Int) + 1 then (cs.length : Int) - 2 else (i : Int) + 1,
         (cs.length : Int) - 1] := by
      simp [select_next_2_commits_targets, h1, hin, hsub]
    rw [hsel, htar]
    set A := (if (cs.length : Int) - 2 ≤ (i : Int) + 1 then (cs.length : Int) - 2
      else (i : Int) + 1) with hA
    have hA0 : 0 ≤ A := by rw [hA]; split_ifs <;> omega
    have hAB : A < (cs.length : Int) - 1 := by rw [hA]; split_ifs <;> omega
    rw [checkedIndices_apply cs i j A ((cs.length : Int) - 1) hij hci hA0 hAB (by omega)]
    have e1 : A.toNat = min (i + 1) (cs.length - 2) := by rw [hA]; split_ifs <;> omega
    have e2 : ((cs.length : Int) - 1).toNat = cs.length - 1 := by omega
    rw [e1, e2]

/-- Indices checked after `select_previows_2_commits` when the selections are
not adjacent: the second moves back to `j - 1`, the first stays. -/
theorem select_previows_2_commits_result_gap (cs : List Bool) (i j : Nat)
    (hn : 2 ≤ cs.length) (hij : i < j) (hci : checkedIndices cs = [i, j])
    (hgap : i + 1 < j) :
    checkedIndices (select_previows_2_commits cs) = [i, j - 1] := by
  have hj : j < cs.length := by
    have hmem : j ∈ checkedIndices cs := by rw [hci]; simp
    exact (mem_checkedIndices.mp hmem).1
  have hsel : select_previows_2_commits cs = apply_selection cs [i, j]
      (select_previows_2_commits_targets [i, j]) := by
    rw [select_previows_2_commits, hci]
  have hne : ¬ ((j : Int) - 1 = (i : Int)) := by omega
  have hpos : ¬ ((i : Int) < 0) := by omega
  have htar : select_previows_2_commits_targets [i, j] =
      [(i : Int), if (j : Int) - 1 ≤ 1 then 1 else (j : Int) - 1] := by
    simp [select_previows_2_commits_targets, hne, hpos]
  rw [hsel, htar]
  set B := (if (j : Int) - 1 ≤ 1 then 1 else (j : Int) - 1) with hB
  have hAB : (i : Int) < B := by rw [hB]; split_ifs <;> omega
  have hBn : B < (cs.length : Int) := by rw [hB]; split_ifs <;> omega
  rw [checkedIndices_apply cs i j (i : Int) B hij hci (by omega) hAB hBn]
  have e1 : ((i : Int)).toNat = i := by omega
  have e2 : B.toNat = j - 1 := by rw [hB]; split_ifs <;> omega
  rw [e1, e2]

/-- Indices checked after `select_previows_2_commits` when the selections are
adjacent: the pair moves back by one when possible, staying at `[i-1, i]`
(clamped to `[0, 1]` at the top). -/
theorem select_previows_2_commits_result_adj (cs : List Bool) (i j : Nat)
    (hn : 2 ≤ cs.length) (hij : i < j) (hci : checkedIndices cs = [i, j])
    (hadj : j = i + 1) :
    checkedIndices (select_previows_2_commits cs) = [i - 1, max i 1] := by
  have hj : j < cs.length := by
    have hmem : j ∈ checkedIndices cs := by rw [hci]; simp
    exact (mem_checkedIndices.mp hmem).1
  have hsel : select_previows_2_commits cs = apply_selection cs [i, j]
      (select_previows_2_commits_targets [i, j]) := by
    rw [select_previows_2_commits, hci]
  have heq : (j : Int) - 1 = (i : Int) := by omega
  by_cases hi0 : 0 < (i : Int)
  · have hpos : ¬ ((i : Int) - 1 < 0) := by omega
    have htar : select_previows_2_commits_targets [i, j] =
        [(i : Int) - 1, if (j : Int) - 1 ≤ 1 then 1 else (j : Int) - 1] := by
      simp [select_previows_2_commits_targets, heq, hi0, hpos]
    rw [hsel, htar]
    set B := (if (j : Int) - 1 ≤ 1 then 1 else (j : Int) - 1) with hB
    have hAB : (i : Int) - 1 < B := by rw [hB]; split_ifs <;> omega
    have hBn : B < (cs.length : Int) := by rw [hB]; split_ifs <;> omega
    rw [checkedIndices_apply cs i j ((i : Int) - 1) B hij hci (by omega) hAB hBn]
    have e1 : ((i : Int) - 1).toNat = i - 1 := by omega
    have e2 : B.toNat = max i 1 := by rw [hB]; split_ifs <;> omega
    rw [e1, e2]
  · have hi2 : i = 0 := by omega
    subst hi2
    have hj1 : j = 1 := by omega
    subst hj1
    have htar : select_previows_2_commits_targets [0, 1] = [(0 : Int), 1] := by decide
    rw [hsel, htar]
    rw [checkedIndices_apply cs 0 1 (0 : Int) 1 hij hci (by omega) (by omega) (by omega)]
    rfl

/-- Claim C1: for every commit checkbox list of length n ≥ 2 with exactly two
checked entries at indices i < j, `select_next_commit` unchecks both and
re-checks the entries at indices `min (i+1) (n-2)` and `min (j+1) (n-1)`:
next-commit navigation is pure list-index arithmetic advancing both
selections by one, clamping the second at the last position and the first at
the second-to-last position. -/
theorem claim_C1_select_next_commit (cs : List Bool) (i j : Nat)
    (hn : 2 ≤ cs.length) (hij : i < j) (hci : checkedIndices cs = [i, j]) :
    checkedIndices (select_next_commit cs) =
      [min (i + 1) (cs.length - 2), min (j + 1) (cs.length - 1)] :=
  select_next_commit_result cs i j hn hij hci

theorem claim_C1_witness :
    2 ≤ ([true, true, false] : List Bool).length ∧ (0 : Nat) < 1 ∧
      checkedIndices [true, true, false] = [0, 1] ∧
      checkedIndices (select_next_commit [true, true, false]) =
        [min (0 + 1) (([true, true, false] : List Bool).length - 2),
         min (1 + 1) (([true, true, false] : List Bool).length - 1)] :=
  ⟨by decide, by decide, by decide,
    claim_C1_select_next_commit [true, true, false] 0 1 (by decide) (by decide) (by decide)⟩

/-- Claim C2: for every commit checkbox list of length n ≥ 2 with exactly two
checked entries at indices i < j, `select_next_2_commits` advances the second
selection to `j+1` leaving the first at `i`; when `j+1 ≥ n` the second
selection becomes `n-1` and the first advances to `i+1` instead when
possible (that is, to `min (i+1) (n-2)`); and the final first index is
strictly below the final second index and at most `n-2`. -/
theorem claim_C2_select_next_2_commits (cs : List Bool) (i j : Nat)
    (hn : 2 ≤ cs.length) (hij : i < j) (hci : checkedIndices cs = [i, j]) :
    (j + 1 < cs.length → checkedIndices (select_next_2_commits cs) = [i, j + 1]) ∧
    (cs.length ≤ j + 1 → checkedIndices (select_next_2_commits cs) =
      [min (i + 1) (cs.length - 2), cs.length - 1]) ∧
    (∃ a b : Nat, checkedIndices (select_next_2_commits cs) = [a, b] ∧ a < b ∧
      a ≤ cs.length - 2) := by
  have hj : j < cs.length := by
    have hmem : j ∈ checkedIndices cs := by rw [hci]; simp
    exact (mem_checkedIndices.mp hmem).1
  refine ⟨fun hlow => select_next_2_commits_result_low cs i j hn hij hci hlow,
    fun hhigh => select_next_2_commits_result_high cs i j hn hij hci hhigh, ?_⟩
  rcases Nat.lt_or_ge (j + 1) cs.length with hlow | hhigh
  · exact ⟨i, j + 1, select_next_2_commits_result_low cs i j hn hij hci hlow,
      by omega, by omega⟩
  · exact ⟨min (i + 1) (cs.length - 2), cs.length - 1,
      select_next_2_commits_result_high cs i j hn hij hci hhigh, by omega, by omega⟩

theorem claim_C2_witness :
    (2 + 1 < ([true, false, true] : List Bool).length →
      checkedIndices (select_next_2_commits [true, false, true]) = [0, 2 + 1]) ∧
    (([true, false, true] : List Bool).length ≤ 2 + 1 →
      checkedIndices (select_next_2_commits [true, false, true]) =
        [min (0 + 1) (([true, false, true] : List Bool).length - 2),
         ([true, false, true] : List Bool).length - 1]) ∧
    (∃ a b : Nat, checkedIndices (select_next_2_commits [true, false, true]) = [a, b] ∧
      a < b ∧ a ≤ ([true, false, true] : List Bool).length - 2) :=
  claim_C2_select_next_2_commits [true, false, true] 0 2 (by decide) (by decide) (by decide)

/-- Claim C8: each of the four commit-navigation operations preserves the
selection well-formedness invariant: starting from a checkbox list of length
n ≥ 2 with exactly two checked entries at indices i < j, afterwards exactly
two entries are checked, at indices a < b with b ≤ n-1. -/
theorem claim_C8_navigation_invariant (cs : List Bool) (i j : Nat)
    (hn : 2 ≤ cs.length) (hij : i < j) (hci : checkedIndices cs = [i, j]) :
    (∃ a b : Nat, checkedIndices (select_next_2_commits cs) = [a, b] ∧ a < b ∧
      b ≤ cs.length - 1) ∧
    (∃ a b : Nat, checkedIndices (select_next_commit cs) = [a, b] ∧ a < b ∧
      b ≤ cs.length - 1) ∧
    (∃ a b : Nat, checkedIndices (select_previows_2_commits cs) = [a, b] ∧ a < b ∧
      b ≤ cs.length - 1) ∧
    (∃ a b : Nat, checkedIndices (select_previows_commit cs) = [a, b] ∧ a < b ∧
      b ≤ cs.length - 1) := by
  have hj : j < cs.length := by
    have hmem : j ∈ checkedIndices cs := by rw [hci]; simp
    exact (mem_checkedIndices.mp hmem).1
  refine ⟨?_, ?_, ?_, ?_⟩
  · rcases Nat.lt_or_ge (j + 1) cs.length with hlow | hhigh
    · exact ⟨i, j + 1, select_next_2_commits_result_low cs i j hn hij hci hlow,
        by omega, by omega⟩
    · exact ⟨min (i + 1) (cs.length - 2), cs.length - 1,
        select_next_2_commits_result_high cs i j hn hij hci hhigh, by omega, by omega⟩
  · exact ⟨min (i + 1) (cs.length - 2), min (j + 1) (cs.length - 1),
      select_next_commit_result cs i j hn hij hci, by omega, by omega⟩
  · rcases Nat.lt_or_ge (i + 1) j with hgap | hadj
    · exact ⟨i, j - 1, select_previows_2_commits_result_gap cs i j hn hij hci hgap,
        by omega, by omega⟩
    · have hadj2 : j = i + 1 := by omega
      exact ⟨i - 1, max i 1, select_previows_2_commits_result_adj cs i j hn hij hci hadj2,
        by omega, by omega⟩
  · exact ⟨i - 1, max (j - 1) 1, select_previows_commit_result cs i j hn hij hci,
      by omega, by omega⟩

theorem claim_C8_witness :
    (∃ a b : Nat, checkedIndices (select_next_2_commits [false, true, false, true]) = [a, b] ∧
      a < b ∧ b ≤ ([false, true, false, true] : List Bool).length - 1) ∧
    (∃ a b : Nat, checkedIndices (select_next_commit [false, true, false, true]) = [a, b] ∧
      a < b ∧ b ≤ ([false, true, false, true] : List Bool).length - 1) ∧
    (∃ a b : Nat, checkedIndices (select_previows_2_commits [false, true, false, true]) = [a, b] ∧
      a < b ∧ b ≤ ([false, true, false, true] : List Bool).length - 1) ∧
    (∃ a b : Nat, checkedIndices (select_previows_commit [false, true, false, true]) = [a, b] ∧
      a < b ∧ b ≤ ([false, true, false, true] : List Bool).length - 1) :=
  claim_C8_navigation_invariant [false, true, false, true] 1 3 (by decide) (by decide)
    (by decide)

/-- Claim C5: when a commit with graph index h is clicked while the selected
commits have graph indices c1 (for commit1) and c2 (for commit2),
`commit_click` replaces commit2 when h ≤ c2, otherwise replaces commit1 when
h ≥ c1, and otherwise (c2 < h < c1) replaces whichever selected commit has
graph index nearer to h, replacing commit1 on a tie; the other selected
commit is unchanged. -/
theorem claim_C5_commit_click (h c1 c2 : Int) (hash commit1 commit2 : String) :
    (h ≤ c2 → commit_click h c1 c2 hash commit1 commit2 = (commit1, hash)) ∧
    (c2 < h → c1 ≤ h → commit_click h c1 c2 hash commit1 commit2 = (hash, commit2)) ∧
    (c2 < h → h < c1 → h - c2 < c1 - h →
      commit_click h c1 c2 hash commit1 commit2 = (commit1, hash)) ∧
    (c2 < h → h < c1 → c1 - h < h - c2 →
      commit_click h c1 c2 hash commit1 commit2 = (hash, commit2)) ∧
    (c2 < h → h < c1 → c1 - h = h - c2 →
      commit_click h c1 c2 hash commit1 commit2 = (hash, commit2)) := by
  unfold commit_click
  refine ⟨?_, ?_, ?_, ?_, ?_⟩ <;> intros <;> split_ifs <;> first | rfl | omega

theorem claim_C5_witness :
    (1 : Int) < 3 ∧ (3 : Int) < 5 ∧ (5 : Int) - 3 = 3 - 1 ∧
      commit_click 3 5 1 "h" "c1" "c2" = ("h", "c2") :=
  ⟨by decide, by decide, by decide,
    (claim_C5_commit_click 3 5 1 "h" "c1" "c2").2.2.2.2 (by decide) (by decide) (by decide)⟩

theorem count_checked_set_false_le (cs : List Bool) (k : Nat) :
    count_checked (cs.set k false) ≤ count_checked cs := by
  induction cs generalizing k with
  | nil => simp [count_checked]
  | cons x xs ih =>
    cases k with
    | zero =>
      cases x <;> simp [count_checked, List.count_cons] <;> omega
    | succ m =>
      simp only [List.set_cons_succ, count_checked, List.count_cons]
      have := ih m
      simp only [count_checked] at this
      omega

/-- Claim C6: whenever a change to a commit checkbox brings the count of
checked commits above two, the change handler immediately unchecks the
changed checkbox, so a state with at most two checked commits can only step
to a state with at most two checked commits. -/
theorem claim_C6_max_two_checked (cs : List Bool) (k : Nat) (b : Bool) :
    (2 < count_checked (cs.set k b) →
      commit_change_handler cs k b = (cs.set k b).set k false) ∧
    (count_checked cs ≤ 2 → count_checked (commit_change_handler cs k b) ≤ 2) := by
  constructor
  · intro hgt
    simp [commit_change_handler, hgt]
  · intro hle
    by_cases hgt : 2 < count_checked (cs.set k b)
    · have hh : commit_change_handler cs k b = (cs.set k b).set k false := by
        simp [commit_change_handler, hgt]
      rw [hh, List.set_set]
      exact le_trans (count_checked_set_false_le cs k) hle
    · have hh : commit_change_handler cs k b = cs.set k b := by
        simp [commit_change_handler, hgt]
      rw [hh]
      omega

theorem claim_C6_witness :
    2 < count_checked ([true, true, false].set 2 true) ∧
      count_checked (commit_change_handler [true, true, false] 2 true) ≤ 2 :=
  ⟨by decide, (claim_C6_max_two_checked [true, true, false] 2 true).2 (by decide)⟩

/-- Counterexample to claim C9 as stated: from a state in the 3D view whose
layers radio list is empty, `show_pcb` finishes in the schematic view — the
trailing `update_layer()` catches the failing recovery (kiri.js lines
986-995) and calls `show_sch()` — so the show_pcb input is not checked,
`current_view` is "show_sch" and `old_view` is "show_pcb" rather than the
value `current_view` had before the call. -/
theorem claim_C9_counterexample :
    ¬ ((show_pcb (ViewState.mk false false true false false true "none" "none" "none"
          "none" "inline" "show_3d" "show_sch" [])).show_pcb_checked = true ∧
        (show_pcb (ViewState.mk false false true false false true "none" "none" "none"
          "none" "inline" "show_3d" "show_sch" [])).show_sch_checked = false ∧
        (show_pcb (ViewState.mk false false true false false true "none" "none" "none"
          "none" "inline" "show_3d" "show_sch" [])).show_3d_checked = false ∧
        (show_pcb (ViewState.mk false false true false false true "none" "none" "none"
          "none" "inline" "show_3d" "show_sch" [])).current_view = "show_pcb" ∧
        (show_pcb (ViewState.mk false false true false false true "none" "none" "none"
          "none" "inline" "show_3d" "show_sch" [])).old_view =
          (ViewState.mk false false true false false true "none" "none" "none"
            "none" "inline" "show_3d" "show_sch" [] : ViewState).current_view) := by
  decide

/-- Claim C9, amended: after `show_sch` or `show_3d`, exactly one of the
three view-mode inputs is checked — the one matching the new `current_view`
— the other two are unchecked, and `old_view` holds the value `current_view`
had before the call.  The same holds after `show_pcb` when the layers radio
list is non-empty; when it is empty, the trailing `update_layer()` falls
back to `show_sch()`, so the call ends with the show_sch input checked, the
other two unchecked, `current_view` equal to "show_sch" and `old_view`
equal to "show_pcb". -/
theorem claim_C9_view_modes_amended (s : ViewState) :
    ((show_sch s).show_sch_checked = true ∧ (show_sch s).show_pcb_checked = false ∧
      (show_sch s).show_3d_checked = false ∧ (show_sch s).current_view = "show_sch" ∧
      (show_sch s).old_view = s.current_view) ∧
    (s.layers ≠ [] →
      (show_pcb s).show_pcb_checked = true ∧ (show_pcb s).show_sch_checked = false ∧
      (show_pcb s).show_3d_checked = false ∧ (show_pcb s).current_view = "show_pcb" ∧
      (show_pcb s).old_view = s.current_view) ∧
    (s.layers = [] →
      (show_pcb s).show_sch_checked = true ∧ (show_pcb s).show_pcb_checked = false ∧
      (show_pcb s).show_3d_checked = false ∧ (show_pcb s).current_view = "show_sch" ∧
      (show_pcb s).old_view = "show_pcb") ∧
    ((show_3d s).show_3d_checked = true ∧ (show_3d s).show_sch_checked = false ∧
      (show_3d s).show_pcb_checked = false ∧ (show_3d s).current_view = "show_3d" ∧
      (show_3d s).old_view = s.current_view) := by
  refine ⟨⟨rfl, rfl, rfl, rfl, rfl⟩, ?_, ?_, ⟨rfl, rfl, rfl, rfl, rfl⟩⟩
  · intro hne
    by_cases hc : true ∈ s.layers
    · simp [show_pcb, update_layer, hc]
    · simp [show_pcb, update_layer, hc, hne]
  · intro hemp
    have hc : ¬ (true ∈ s.layers) := by rw [hemp]; simp
    simp [show_pcb, update_layer, show_sch, hc, hemp]

theorem claim_C9_witness :
    (show_pcb (ViewState.mk true false false true false false "inline" "none" "inline"
      "none" "none" "show_sch" "show_sch" [true])).show_pcb_checked = true ∧
    (show_pcb (ViewState.mk true false false true false false "inline" "none" "inline"
      "none" "none" "show_sch" "show_sch" [true])).old_view =
      (ViewState.mk true false false true false false "inline" "none" "inline"
        "none" "none" "show_sch" "show_sch" [true] : ViewState).current_view ∧
    (show_pcb (ViewState.mk false false true false false true "none" "none" "none"
      "none" "inline" "show_3d" "show_sch" [])).current_view = "show_sch" ∧
    (show_pcb (ViewState.mk false false true false false true "none" "none" "none"
      "none" "inline" "show_3d" "show_sch" [])).old_view = "show_pcb" :=
  ⟨((claim_C9_view_modes_amended (ViewState.mk true false false true false false "inline"
      "none" "inline" "none" "none" "show_sch" "show_sch" [true])).2.1 (by decide)).1,
   ((claim_C9_view_modes_amended (ViewState.mk true false false true false false "inline"
      "none" "inline" "none" "none" "show_sch" "show_sch" [true])).2.1 (by decide)).2.2.2.2,
   ((claim_C9_view_modes_amended (ViewState.mk false false true false false true "none"
      "none" "none" "none" "inline" "show_3d" "show_sch" [])).2.2.1 (by decide)).2.2.2.1,
   ((claim_C9_view_modes_amended (ViewState.mk false false true false false true "none"
      "none" "none" "none" "inline" "show_3d" "show_sch" [])).2.2.1 (by decide)).2.2.2.2⟩

/-- Claim C10: for a non-empty radio list of length len with selected index
k, `select_next_sch_or_pcb` selects k+1 when in range; at the last entry it
keeps the last entry when cycle is false and wraps to 0 when cycle is true;
`select_preview_sch_or_pcb` selects k-1, staying at 0 when cycle is false
and wrapping to the last index when cycle is true. -/
theorem claim_C10_page_layer_navigation (len k : Int) (cycle : Bool)
    (_h0 : 0 ≤ k) (_hk : k < len) :
    (k + 1 < len → select_next_sch_or_pcb len k cycle = k + 1) ∧
    (k + 1 = len → cycle = false → select_next_sch_or_pcb len k cycle = len - 1) ∧
    (k + 1 = len → cycle = true → select_next_sch_or_pcb len k cycle = 0) ∧
    (0 < k → select_preview_sch_or_pcb len k cycle = k - 1) ∧
    (k = 0 → cycle = false → select_preview_sch_or_pcb len k cycle = 0) ∧
    (k = 0 → cycle = true → select_preview_sch_or_pcb len k cycle = len - 1) := by
  unfold select_next_sch_or_pcb select_preview_sch_or_pcb
  refine ⟨?_, ?_, ?_, ?_, ?_, ?_⟩
  · intro hlt
    rw [if_neg (by omega)]
  · intro heq hc
    subst hc
    rw [if_pos (by omega)]
    simp
  · intro heq hc
    subst hc
    rw [if_pos (by omega)]
    simp
  · intro hpos
    rw [if_neg (by omega)]
  · intro heq hc
    subst hc
    rw [if_pos (by omega)]
    simp
  · intro heq hc
    subst hc
    rw [if_pos (by omega)]
    simp

theorem claim_C10_witness :
    select_next_sch_or_pcb 3 1 false = 1 + 1 ∧
      select_preview_sch_or_pcb 3 1 false = 1 - 1 :=
  ⟨(claim_C10_page_layer_navigation 3 1 false (by decide) (by decide)).1 (by decide),
   (claim_C10_page_layer_navigation 3 1 false (by decide) (by decide)).2.2.2.1 (by decide)⟩

/-- Claim C7: when `removeEmbed` runs during a view switch (a live pan/zoom
instance exists and the old view is not the 3D view), the departing views
zoom and pan are saved into that views saved-state variables
(sch_current_zoom/sch_current_pan when switching to the PCB view,
pcb_current_zoom/pcb_current_pan when switching to the schematic view), the
old-zoom marker is reset to null, and the next `onUpdatedCTM` callback in
that view restores exactly the saved zoom and pan. -/
theorem claim_C7_pan_zoom_preserved (s : PanZoomState) (z : Int) (p : Int × Int)
    (hpz : s.panZoom = some (z, p)) (hold : s.old_view ≠ "show_3d") :
    (s.current_view = "show_pcb" →
      (removeEmbed s).sch_current_zoom = some z ∧
      (removeEmbed s).sch_current_pan = some p ∧
      (removeEmbed s).sch_old_zoom = none ∧
      (removeEmbed s).panZoom = none ∧
      (onUpdatedCTM { removeEmbed s with current_view := "show_sch" }).2 =
        some (some z, some p) ∧
      (onUpdatedCTM { removeEmbed s with current_view := "show_sch" }).1.sch_old_zoom =
        some z) ∧
    (s.current_view = "show_sch" →
      (removeEmbed s).pcb_current_zoom = some z ∧
      (removeEmbed s).pcb_current_pan = some p ∧
      (removeEmbed s).pcb_old_zoom = none ∧
      (removeEmbed s).panZoom = none ∧
      (onUpdatedCTM { removeEmbed s with current_view := "show_pcb" }).2 =
        some (some z, some p) ∧
      (onUpdatedCTM { removeEmbed s with current_view := "show_pcb" }).1.pcb_old_zoom =
        some z) := by
  obtain ⟨cv, ov, pzo, sz, soz, sp, pcz, poz, pcp⟩ := s
  have hpz2 : pzo = some (z, p) := hpz
  have hold2 : ov ≠ "show_3d" := hold
  subst hpz2
  constructor
  · intro hcv
    have hcv2 : cv = "show_pcb" := hcv
    subst hcv2
    simp [removeEmbed, onUpdatedCTM, hold2]
  · intro hcv
    have hcv2 : cv = "show_sch" := hcv
    subst hcv2
    simp [removeEmbed, onUpdatedCTM, hold2]

theorem claim_C7_witness :
    (PanZoomState.mk "show_pcb" "show_sch" (some (3, (4, 5))) none none none none none
        none).panZoom = some (3, (4, 5)) ∧
    (PanZoomState.mk "show_pcb" "show_sch" (some (3, (4, 5))) none none none none none
        none).old_view ≠ "show_3d" ∧
    ((removeEmbed (PanZoomState.mk "show_pcb" "show_sch" (some (3, (4, 5))) none none none
        none none none)).sch_current_zoom = some 3 ∧
      (removeEmbed (PanZoomState.mk "show_pcb" "show_sch" (some (3, (4, 5))) none none none
        none none none)).sch_current_pan = some (4, 5) ∧
      (removeEmbed (PanZoomState.mk "show_pcb" "show_sch" (some (3, (4, 5))) none none none
        none none none)).sch_old_zoom = none ∧
      (removeEmbed (PanZoomState.mk "show_pcb" "show_sch" (some (3, (4, 5))) none none none
        none none none)).panZoom = none ∧
      (onUpdatedCTM { removeEmbed (PanZoomState.mk "show_pcb" "show_sch" (some (3, (4, 5)))
        none none none none none none) with current_view := "show_sch" }).2 =
        some (some 3, some (4, 5)) ∧
      (onUpdatedCTM { removeEmbed (PanZoomState.mk "show_pcb" "show_sch" (some (3, (4, 5)))
        none none none none none none) with current_view := "show_sch" }).1.sch_old_zoom =
        some 3) :=
  ⟨rfl, by decide,
    (claim_C7_pan_zoom_preserved
      (PanZoomState.mk "show_pcb" "show_sch" (some (3, (4, 5))) none none none none none
        none) 3 (4, 5) rfl (by decide)).1 rfl⟩

set_option maxRecDepth 100000 in
/-- Claim C4: for every HTTP status (the valid statuses all lie below 1000),
the callback of `if_url_exists` is invoked with true exactly when the first
digit of the status is 2, that is exactly for the 2xx statuses 200..299, and
with false for every other status. -/
theorem claim_C4_if_url_exists :
    ∀ status < 1000, 100 ≤ status →
      (if_url_exists status = true ↔ 200 ≤ status ∧ status ≤ 299) := by
  decide

theorem claim_C4_witness :
    (204 < 1000 ∧ 100 ≤ 204 ∧ (if_url_exists 204 = true ↔ 200 ≤ 204 ∧ 204 ≤ 299)) ∧
    (404 < 1000 ∧ 100 ≤ 404 ∧ (if_url_exists 404 = true ↔ 200 ≤ 404 ∧ 404 ≤ 299)) :=
  ⟨⟨by decide, by decide, claim_C4_if_url_exists 204 (by decide) (by decide)⟩,
   ⟨by decide, by decide, claim_C4_if_url_exists 404 (by decide) (by decide)⟩⟩

/-! ### Machinery: insertion-order dedup (JS Set semantics) -/

theorem mem_pushNew {acc : List String} {y x : String} :
    x ∈ pushNew acc y ↔ x ∈ acc ∨ x = y := by
  unfold pushNew
  split_ifs with h
  · constructor
    · exact fun hx => Or.inl hx
    · rintro (hx | rfl)
      · exact hx
      · exact h
  · simp [List.mem_append]

theorem mem_foldl_pushNew (l : List String) :
    ∀ (acc : List String) (x : String), x ∈ l.foldl pushNew acc ↔ x ∈ acc ∨ x ∈ l := by
  induction l with
  | nil => simp
  | cons y l0 ih =>
    intro acc x
    simp only [List.foldl_cons]
    rw [ih, mem_pushNew, List.mem_cons]
    tauto

theorem mem_setDedup {l : List String} {x : String} : x ∈ setDedup l ↔ x ∈ l := by
  unfold setDedup
  rw [mem_foldl_pushNew]
  simp

theorem nodup_foldl_pushNew (l : List String) :
    ∀ acc : List String, acc.Nodup → (l.foldl pushNew acc).Nodup := by
  induction l with
  | nil => exact fun acc h => h
  | cons y l0 ih =>
    intro acc h
    simp only [List.foldl_cons]
    apply ih
    unfold pushNew
    split_ifs with hy
    · exact h
    · refine List.Nodup.append h (List.nodup_singleton y) ?_
      intro a ha hb
      rw [List.mem_singleton] at hb
      subst hb
      exact hy ha

theorem nodup_setDedup (l : List String) : (setDedup l).Nodup :=
  nodup_foldl_pushNew l [] List.nodup_nil

theorem foldl_pushNew_eq_aux :
    ∀ (fuel : Nat) (l acc : List String), l.length ≤ fuel →
      l.foldl pushNew acc = acc ++ setDedup (l.filter (fun x => !(decide (x ∈ acc)))) := by
  intro fuel
  induction fuel with
  | zero =>
    intro l acc hl
    have hle : l = [] := List.eq_nil_of_length_eq_zero (by omega)
    subst hle
    simp [setDedup]
  | succ fuel ih =>
    intro l acc hl
    cases l with
    | nil => simp [setDedup]
    | cons y l0 =>
      simp only [List.length_cons] at hl
      simp only [List.foldl_cons]
      by_cases hy : y ∈ acc
      · have hpush : pushNew acc y = acc := by simp [pushNew, hy]
        rw [hpush, ih l0 acc (by omega)]
        have hfil : (y :: l0).filter (fun x => !(decide (x ∈ acc))) =
            l0.filter (fun x => !(decide (x ∈ acc))) := by
          simp [List.filter_cons, hy]
        rw [hfil]
      · have hpush : pushNew acc y = acc ++ [y] := by simp [pushNew, hy]
        rw [hpush, ih l0 (acc ++ [y]) (by omega)]
        have hfil : (y :: l0).filter (fun x => !(decide (x ∈ acc))) =
            y :: l0.filter (fun x => !(decide (x ∈ acc))) := by
          simp [List.filter_cons, hy]
        rw [hfil]
        have hded : setDedup (y :: l0.filter (fun x => !(decide (x ∈ acc)))) =
            [y] ++ setDedup ((l0.filter (fun x => !(decide (x ∈ acc)))).filter
              (fun x => !(decide (x ∈ ([y] : List String))))) := by
          unfold setDedup
          simp only [List.foldl_cons]
          have hp0 : pushNew [] y = [y] := by simp [pushNew]
          rw [hp0]
          exact ih (l0.filter (fun x => !(decide (x ∈ acc)))) [y]
            (le_trans (List.length_filter_le _ _) (by omega))
        rw [hded, List.filter_filter]
        have hpred : (fun x => (!(decide (x ∈ ([y] : List String)))) &&
              (!(decide (x ∈ acc)))) =
            (fun x => !(decide (x ∈ acc ++ [y]))) := by
          funext x
          by_cases h1 : x ∈ acc <;> by_cases h2 : x ∈ ([y] : List String) <;>
            simp [h1, h2, List.mem_append]
        rw [hpred, List.append_assoc]

theorem foldl_pushNew_eq (l acc : List String) :
    l.foldl pushNew acc = acc ++ setDedup (l.filter (fun x => !(decide (x ∈ acc)))) :=
  foldl_pushNew_eq_aux l.length l acc (le_refl _)

theorem setDedup_of_nodup : ∀ {l : List String}, l.Nodup → setDedup l = l := by
  intro l
  induction l with
  | nil => intro _; rfl
  | cons y l0 ih =>
    intro h
    unfold setDedup
    simp only [List.foldl_cons]
    have hp0 : pushNew [] y = [y] := by simp [pushNew]
    rw [hp0, foldl_pushNew_eq]
    have hy : y ∉ l0 := (List.nodup_cons.mp h).1
    have hfil : l0.filter (fun x => !(decide (x ∈ ([y] : List String)))) = l0 := by
      rw [List.filter_eq_self]
      intro a ha
      simp
      intro heq
      subst heq
      exact hy ha
    rw [hfil, ih (List.nodup_cons.mp h).2]
    rfl

/-- Claim C3: `update_sheets_list` rebuilds the sheet list from the two flat
pipe-delimited `sch_sheets` files so that the result is exactly the first
commits sheet ids in file order followed by those sheet ids of the second
commit not already present, with no duplicates. -/
theorem claim_C3_update_sheets_list (data1 data2 : String) :
    update_sheets_list data1 data2 = spec_sheets_list data1 data2 ∧
      (update_sheets_list data1 data2).Nodup := by
  constructor
  · unfold update_sheets_list spec_sheets_list
    show setDedup ((sheetIds data2).foldl pushNew (sheetIds data1)) = _
    rw [foldl_pushNew_eq]
    have h2 : setDedup (sheetIds data1 ++ setDedup ((sheetIds data2).filter
          (fun x => !(decide (x ∈ sheetIds data1))))) =
        (setDedup ((sheetIds data2).filter
          (fun x => !(decide (x ∈ sheetIds data1))))).foldl pushNew
            (setDedup (sheetIds data1)) := by
      unfold setDedup
      rw [List.foldl_append]
    rw [h2, foldl_pushNew_eq]
    have hXfil : (setDedup ((sheetIds data2).filter
          (fun x => !(decide (x ∈ sheetIds data1))))).filter
        (fun x => !(decide (x ∈ setDedup (sheetIds data1)))) =
        setDedup ((sheetIds data2).filter (fun x => !(decide (x ∈ sheetIds data1)))) := by
      rw [List.filter_eq_self]
      intro a ha
      have ha2 : a ∈ (sheetIds data2).filter
          (fun x => !(decide (x ∈ sheetIds data1))) := mem_setDedup.mp ha
      rw [List.mem_filter] at ha2
      have hnot : ¬ a ∈ sheetIds data1 := by
        have hb := ha2.2
        simp at hb
        exact hb
      simp
      intro hmem
      exact absurd (mem_setDedup.mp hmem) hnot
    rw [hXfil]
    rw [setDedup_of_nodup (nodup_setDedup _)]
  · exact nodup_setDedup _

end Kiri
